import Mathlib

/-!
Shallow embedding of the FracFocus PDF downloader service (`src/app.py`) and
verification of its specification claims.

Modelling conventions:
* Python's insertion-ordered dicts (`jobs`, `downloads`) become association
  lists `List (String × α)`; `del` is `eraseA`, item assignment is `insertA`
  (replace in place when the key is present, append otherwise), and in-place
  field mutation is `updateA`.
* Timestamps are natural numbers (`datetime.now()` becomes a `now : Nat`
  parameter); `timedelta(hours=1)` is `3600`.
* File paths are pairs `(dir, name)` so that `os.path.join` and
  `os.path.dirname` are the pairing and first projection; the filesystem is a
  list of existing files plus a list of existing directories.
* The browser is an oracle (`OrchEnv`) describing which steps succeed and what
  the page / download directory contain; each HTTP handler or background run is
  an atomic state transformer, matching the coarse-grained interleaving of the
  single-process server.
-/

/-- Lifecycle status of a job, as stored in the `status` field of a job dict
entry in `app.py`. -/
inductive Status where
  | queued
  | downloading
  | completed
  | failed
deriving DecidableEq, Repr

/-- `status in ['completed', 'failed']` — the terminal statuses, used by the
eviction loop in `start_download`. -/
def Status.isTerminal : Status → Bool
  | .completed => true
  | .failed => true
  | _ => false

/-- One entry of the `jobs` dict (`app.py` lines 242–247 create it; the
orchestrator mutates `status`, `file`, `completed_at`, `error`). The job id is
the association-list key. -/
structure Job where
  well_url : String
  status : Status
  created_at : Nat
  completed_at : Option Nat := none
  file : Option String := none
  error : Option String := none
deriving DecidableEq, Repr

/-- A file path, modelled as (directory, file name) so that `os.path.dirname`
is the first projection. -/
abbrev FPath := String × String

/-- One entry of the `downloads` dict (`app.py` lines 164–167). -/
structure DownloadRecord where
  file_path : FPath
  expires_at : Nat
deriving DecidableEq, Repr

/-- The filesystem visible to the service: which files and directories exist
under the download root. -/
structure FS where
  files : List FPath
  dirs : List String
deriving DecidableEq, Repr

/-- The whole in-memory server state: the `jobs` registry, the `downloads`
store, the `active_downloads` counter and the filesystem. -/
structure AppState where
  jobs : List (String × Job)
  downloads : List (String × DownloadRecord)
  active_downloads : Nat
  fs : FS
deriving DecidableEq, Repr

/-- The state at process start: empty dicts, zero active downloads. -/
def initState : AppState := ⟨[], [], 0, ⟨[], []⟩⟩

/-! ### Association-list helpers (Python dict operations) -/

/-- Dict lookup `d[k]` / `k in d`. -/
def lookupA (k : String) : List (String × α) → Option α
  | [] => none
  | p :: rest => if p.1 = k then some p.2 else lookupA k rest

/-- Dict deletion `del d[k]` (removes the first — with unique keys, the only —
binding of `k`). -/
def eraseA (k : String) : List (String × α) → List (String × α)
  | [] => []
  | p :: rest => if p.1 = k then rest else p :: eraseA k rest

/-- In-place mutation `d[k]['field'] = v` of an existing entry. -/
def updateA (k : String) (f : α → α) : List (String × α) → List (String × α)
  | [] => []
  | p :: rest => if p.1 = k then (p.1, f p.2) :: rest else p :: updateA k f rest

/-- Dict assignment `d[k] = v`: replaces in place when `k` is present,
appends otherwise (Python dicts keep insertion order). -/
def insertA (k : String) (v : α) (l : List (String × α)) : List (String × α) :=
  if (lookupA k l).isSome then updateA k (fun _ => v) l else l ++ [(k, v)]

/-- The keys of an association list. -/
def keysOf (l : List (String × α)) : List String := l.map Prod.fst

/-! ### Configuration constants (`app.py` lines 39, 46, 87) -/

def MAX_JOBS : Nat := 50

def MAX_CONCURRENT_DOWNLOADS : Nat := 2

/-- The allow-listed URL beginning checked by `DownloadRequest.validate_well_url`. -/
def urlAllowBase : String := "https://fracfocus.org/wells/"

/-- Python `s.startswith(pre)`, at the character level. -/
def strStarts (s pre : String) : Bool :=
  decide (List.IsPrefix pre.toList s.toList)

/-- Python `s.lower()`, at the character level. -/
def strToLower (s : String) : String :=
  ⟨s.data.map Char.toLower⟩

/-- Python `s.endswith(suf)`, at the character level. -/
def strEnds (s suf : String) : Bool :=
  decide (List.IsSuffix suf.toList s.toList)

/-! ### `POST /api/download` (`start_download`, `app.py` lines 194–256) -/

/-- Response of the `start_download` handler: 202-accepted with a job id, or
an HTTP error status (422 validation error raised by the pydantic validator,
429 capacity error). -/
inductive Resp where
  | accepted (jobId : String)
  | error (code : Nat)
deriving DecidableEq, Repr

/-- The fresh job record created at `app.py` lines 242–247. -/
def newJob (url : String) (now : Nat) : Job :=
  { well_url := url, status := .queued, created_at := now }

/-- The eviction loop at `app.py` lines 209–217: scan `jobs.items()`, keeping
the terminal job whose `created_at` is strictly below the running minimum
(initialised to `datetime.now()`). Returns the final `(oldest_job_id,
oldest_time)` pair. -/
def findOldest : List (String × Job) → Option String → Nat → Option String × Nat
  | [], oid, ot => (oid, ot)
  | p :: rest, oid, ot =>
    if p.2.status.isTerminal ∧ p.2.created_at < ot then
      findOldest rest (some p.1) p.2.created_at
    else
      findOldest rest oid ot

/-- Eviction of a chosen job (`app.py` lines 219–231): delete it from `jobs`;
if it has a download record, remove the backing file (when it exists) and the
record. -/
def evictJob (s : AppState) (oldestId : String) : AppState :=
  let s1 := { s with jobs := eraseA oldestId s.jobs }
  match lookupA oldestId s1.downloads with
  | some r =>
      { s1 with
        fs := { s1.fs with files := s1.fs.files.filter (fun f => f ≠ r.file_path) },
        downloads := eraseA oldestId s1.downloads }
  | none => s1

/-- The `POST /api/download` handler. `newId` stands for the fresh
`uuid.uuid4()` value; validation by the pydantic model happens before the
handler body, so an invalid URL yields an error with the state untouched. -/
def start_download (s : AppState) (now : Nat) (url : String) (newId : String) :
    Resp × AppState :=
  if ¬ strStarts url urlAllowBase then (.error 422, s)
  else if MAX_CONCURRENT_DOWNLOADS ≤ s.active_downloads then (.error 429, s)
  else if MAX_JOBS ≤ s.jobs.length then
    match (findOldest s.jobs none now).1 with
    | some oldestId =>
        let s1 := evictJob s oldestId
        (.accepted newId, { s1 with jobs := insertA newId (newJob url now) s1.jobs })
    | none => (.error 429, s)
  else
    (.accepted newId, { s with jobs := insertA newId (newJob url now) s.jobs })

/-! ### DOM model and the selector priority loop (`app.py` lines 115–142) -/

/-- The tag of a candidate element: the XPath selectors target only `button`
and `a` elements. -/
inductive Tag where
  | button
  | anchor
deriving DecidableEq, Repr

/-- A page element as the selector loop sees it: tag, visible text, and (for
anchors) the `href` attribute. -/
structure Elem where
  tag : Tag
  text : String
  href : Option String := none
deriving DecidableEq, Repr

/-- `needle` occurs as a substring of `hay` (XPath `contains`). -/
def strContains (hay needle : String) : Bool :=
  decide (needle.toList <:+: hay.toList)

/-- One XPath selector from the `selectors` list. -/
inductive Selector where
  | buttonText (t : String)
  | anchorText (t : String)
  | anchorHref (t : String)
deriving DecidableEq, Repr

/-- Whether one element matches one selector. -/
def selMatches (sel : Selector) (e : Elem) : Bool :=
  match sel with
  | .buttonText t => e.tag == .button && strContains e.text t
  | .anchorText t => e.tag == .anchor && strContains e.text t
  | .anchorHref t =>
      e.tag == .anchor &&
        (match e.href with
         | some h => strContains h t
         | none => false)

/-- The `selectors` list of `app.py` lines 116–126, in source order. -/
def code_selectors : List Selector :=
  [ .buttonText "Download PDF",
    .anchorText "Download PDF",
    .buttonText "PDF",
    .anchorText "PDF",
    .anchorHref "pdf",
    .buttonText "Disclosure",
    .anchorText "Disclosure",
    .buttonText "Download",
    .anchorText "Download" ]

/-- The selector loop of `app.py` lines 128–140: for each selector in order,
`find_elements` (here: `filter`); the first selector with a non-empty match
list wins and its first element (`elements[0]`) is the chosen button. -/
def findButton (sels : List Selector) (page : List Elem) : Option Elem :=
  match sels with
  | [] => none
  | sel :: rest =>
    match page.filter (fun e => selMatches sel e) with
    | [] => findButton rest page
    | e :: _ => some e

/-- A pattern as the specification words it: a visible-text pattern (any
clickable element) or a link-target pattern. -/
inductive SpecPattern where
  | visibleText (t : String)
  | hrefContains (t : String)
deriving DecidableEq, Repr

/-- Whether an element matches a spec-worded pattern. -/
def specPatternMatches (pat : SpecPattern) (e : Elem) : Bool :=
  match pat with
  | .visibleText t => strContains e.text t
  | .hrefContains t =>
      e.tag == .anchor &&
        (match e.href with
         | some h => strContains h t
         | none => false)

/-- The pattern order exactly as the specification sentence lists it:
visible text "Download PDF", then "PDF", then "Disclosure", then "Download",
then link targets containing "pdf". -/
def spec_patterns : List SpecPattern :=
  [ .visibleText "Download PDF",
    .visibleText "PDF",
    .visibleText "Disclosure",
    .visibleText "Download",
    .hrefContains "pdf" ]

/-- First-match-wins search over the spec-worded pattern list. -/
def specFindButton (pats : List SpecPattern) (page : List Elem) : Option Elem :=
  match pats with
  | [] => none
  | pat :: rest =>
    match page.filter (fun e => specPatternMatches pat e) with
    | [] => specFindButton rest page
    | e :: _ => some e

/-- A page on which the code's selector order and the spec's stated pattern
order pick different elements: an anchor whose `href` contains `pdf` together
with a button whose visible text is `Disclosure`. -/
def divergencePage : List Elem :=
  [ { tag := .anchor, text := "open", href := some "doc.pdf" },
    { tag := .button, text := "Disclosure", href := none } ]

/-! ### The orchestrator (`download_disclosure_pdf`, `app.py` lines 91–192) -/

/-- Oracle for everything the external browser does during one orchestration
run: whether Chrome starts, whether navigation / page-ready waiting succeeds,
the page contents, whether scroll-and-click succeeds, the listing of the
job's download directory after the post-click wait, and the message of the
exception raised on a failing step. -/
structure OrchEnv where
  chromeStarts : Bool
  navOk : Bool
  page : List Elem
  clickOk : Bool
  listedFiles : List String
  errMsg : String

/-- `[f for f in files if f.lower().endswith('.pdf')]` (`app.py` line 157). -/
def pdfNames (files : List String) : List String :=
  files.filter (fun f => strEnds (strToLower f) ".pdf")

/-- Whether a browser session was started during the run and whether it was
terminated (`driver.quit()` in the `finally` block). -/
structure RunInfo where
  browserStarted : Bool
  browserClosed : Bool
deriving DecidableEq, Repr

/-- Set a job's status to `failed` with an error message (`app.py` lines
174–175, 178–179, 183–184). -/
def failJob (jobId : String) (msg : String) (l : List (String × Job)) :
    List (String × Job) :=
  updateA jobId (fun j => { j with status := .failed, error := some msg }) l

/-- The background task `download_disclosure_pdf`, as an atomic state
transformer driven by the browser oracle. It mirrors `app.py` lines 91–192:
increment `active_downloads`; mark the job `downloading`; create the
job-scoped download directory; drive the browser (any exception is caught and
turns into a `failed` status with the exception's message); on success store
a download record expiring in one hour and mark the job `completed`; in the
`finally` block quit the browser if it was started and decrement the
counter. -/
def download_disclosure_pdf (env : OrchEnv) (jobId : String) (now : Nat)
    (s : AppState) : AppState × RunInfo :=
  let s0 := { s with active_downloads := s.active_downloads + 1 }
  let s1 := { s0 with
    jobs := updateA jobId (fun j => { j with status := .downloading }) s0.jobs }
  let s1d := { s1 with
    fs := { s1.fs with
      dirs := if jobId ∈ s1.fs.dirs then s1.fs.dirs else s1.fs.dirs ++ [jobId] } }
  let body : AppState :=
    if ¬ env.chromeStarts then
      { s1d with jobs := failJob jobId env.errMsg s1d.jobs }
    else if ¬ env.navOk then
      { s1d with jobs := failJob jobId env.errMsg s1d.jobs }
    else
      match findButton code_selectors env.page with
      | none =>
          { s1d with
            jobs := failJob jobId "Could not find download button on page" s1d.jobs }
      | some _ =>
          if ¬ env.clickOk then
            { s1d with jobs := failJob jobId env.errMsg s1d.jobs }
          else
            let s2 := { s1d with
              fs := { s1d.fs with
                files := s1d.fs.files ++ env.listedFiles.map (fun f => (jobId, f)) } }
            match pdfNames env.listedFiles with
            | [] =>
                { s2 with
                  jobs := failJob jobId "No PDF files found after download" s2.jobs }
            | name :: _ =>
                { s2 with
                  downloads := insertA jobId
                    { file_path := (jobId, name), expires_at := now + 3600 }
                    s2.downloads,
                  jobs := updateA jobId
                    (fun j => { j with status := .completed, file := some name,
                                       completed_at := some now }) s2.jobs }
  ({ body with active_downloads := body.active_downloads - 1 },
   { browserStarted := env.chromeStarts, browserClosed := env.chromeStarts })

/-! ### `GET /api/jobs/{job_id}` (`app.py` lines 258–264) -/

/-- The status-query handler: the job record, or `none` (404). -/
def get_job_status (s : AppState) (jobId : String) : Option Job :=
  lookupA jobId s.jobs

/-! ### `GET /api/downloads/{job_id}` (`download_file`, `app.py` lines 266–291) -/

/-- Result of a download fetch: 404 (absent), 410 (expired, purged as a side
effect), or the file response with its media type. -/
inductive FetchResult where
  | notFound
  | gone
  | fileResp (path : FPath) (mediaType : String)
deriving DecidableEq, Repr

/-- The `download_file` handler: 404 when no record exists; when the record
has expired (`datetime.now() > expires_at`), remove the backing file (when
present) and the record and answer 410; otherwise stream the file as
`application/pdf`. -/
def download_file (now : Nat) (jobId : String) (s : AppState) :
    FetchResult × AppState :=
  match lookupA jobId s.downloads with
  | none => (.notFound, s)
  | some r =>
    if r.expires_at < now then
      (.gone,
       { s with
         downloads := eraseA jobId s.downloads,
         fs := { s.fs with files := s.fs.files.filter (fun f => f ≠ r.file_path) } })
    else
      (.fileResp r.file_path "application/pdf", s)

/-! ### The janitor (`start_cleanup_thread`, `app.py` lines 331–357) -/

/-- Per-record filesystem cleanup for an expired record (`app.py` lines
342–348): delete the backing file when it exists, then delete its directory
when the directory exists and has become empty. -/
def fsCleanup (r : DownloadRecord) (fs : FS) : FS :=
  let files1 := fs.files.filter (fun f => f ≠ r.file_path)
  let d := r.file_path.1
  if d ∈ fs.dirs ∧ files1.filter (fun f => f.1 = d) = [] then
    { files := files1, dirs := fs.dirs.filter (fun x => x ≠ d) }
  else
    { fs with files := files1 }

/-- The sweep loop body: walk the snapshot of `downloads` in order; every
record with `now > expires_at` gets its files cleaned up and is dropped from
the dict; every other record is kept unchanged. -/
def sweepRecs (now : Nat) (l : List (String × DownloadRecord)) (fs : FS) :
    List (String × DownloadRecord) × FS :=
  match l with
  | [] => ([], fs)
  | p :: rest =>
    if p.2.expires_at < now then
      sweepRecs now rest (fsCleanup p.2 fs)
    else
      let (d, fs') := sweepRecs now rest fs
      (p :: d, fs')

/-- One cycle of the janitor thread (`cleanup_old_jobs`). -/
def janitorSweep (now : Nat) (s : AppState) : AppState :=
  let (d, fs') := sweepRecs now s.downloads s.fs
  { s with downloads := d, fs := fs' }

/-! ### The system's step relation -/

/-- One atomic operation of the running service: a job-creation request
(with a fresh uuid), one orchestration run for a job that is still queued
(each job's background task is spawned exactly once, at creation time, when
the job is queued), one janitor cycle, one download fetch, or a read-only
query. -/
inductive Step : AppState → AppState → Prop where
  | create (s : AppState) (now : Nat) (url newId : String)
      (hfresh : lookupA newId s.jobs = none) :
      Step s (start_download s now url newId).2
  | run (s : AppState) (env : OrchEnv) (jobId : String) (now : Nat) (j : Job)
      (hj : lookupA jobId s.jobs = some j) (hq : j.status = .queued) :
      Step s (download_disclosure_pdf env jobId now s).1
  | janitor (s : AppState) (now : Nat) :
      Step s (janitorSweep now s)
  | fetch (s : AppState) (now : Nat) (jobId : String) :
      Step s (download_file now jobId s).2
  | query (s : AppState) :
      Step s s

/-- A registry at capacity for the eviction witness: fifty jobs, the first
(`j00`, created at 3) completed, the remaining forty-nine queued. -/
def evictionWitnessState : AppState :=
  ⟨[
    ("j00", { well_url := "u", status := .completed, created_at := 3 }),
    ("j01", { well_url := "u", status := .queued, created_at := 11 }),
    ("j02", { well_url := "u", status := .queued, created_at := 12 }),
    ("j03", { well_url := "u", status := .queued, created_at := 13 }),
    ("j04", { well_url := "u", status := .queued, created_at := 14 }),
    ("j05", { well_url := "u", status := .queued, created_at := 15 }),
    ("j06", { well_url := "u", status := .queued, created_at := 16 }),
    ("j07", { well_url := "u", status := .queued, created_at := 17 }),
    ("j08", { well_url := "u", status := .queued, created_at := 18 }),
    ("j09", { well_url := "u", status := .queued, created_at := 19 }),
    ("j10", { well_url := "u", status := .queued, created_at := 20 }),
    ("j11", { well_url := "u", status := .queued, created_at := 21 }),
    ("j12", { well_url := "u", status := .queued, created_at := 22 }),
    ("j13", { well_url := "u", status := .queued, created_at := 23 }),
    ("j14", { well_url := "u", status := .queued, created_at := 24 }),
    ("j15", { well_url := "u", status := .queued, created_at := 25 }),
    ("j16", { well_url := "u", status := .queued, created_at := 26 }),
    ("j17", { well_url := "u", status := .queued, created_at := 27 }),
    ("j18", { well_url := "u", status := .queued, created_at := 28 }),
    ("j19", { well_url := "u", status := .queued, created_at := 29 }),
    ("j20", { well_url := "u", status := .queued, created_at := 30 }),
    ("j21", { well_url := "u", status := .queued, created_at := 31 }),
    ("j22", { well_url := "u", status := .queued, created_at := 32 }),
    ("j23", { well_url := "u", status := .queued, created_at := 33 }),
    ("j24", { well_url := "u", status := .queued, created_at := 34 }),
    ("j25", { well_url := "u", status := .queued, created_at := 35 }),
    ("j26", { well_url := "u", status := .queued, created_at := 36 }),
    ("j27", { well_url := "u", status := .queued, created_at := 37 }),
    ("j28", { well_url := "u", status := .queued, created_at := 38 }),
    ("j29", { well_url := "u", status := .queued, created_at := 39 }),
    ("j30", { well_url := "u", status := .queued, created_at := 40 }),
    ("j31", { well_url := "u", status := .queued, created_at := 41 }),
    ("j32", { well_url := "u", status := .queued, created_at := 42 }),
    ("j33", { well_url := "u", status := .queued, created_at := 43 }),
    ("j34", { well_url := "u", status := .queued, created_at := 44 }),
    ("j35", { well_url := "u", status := .queued, created_at := 45 }),
    ("j36", { well_url := "u", status := .queued, created_at := 46 }),
    ("j37", { well_url := "u", status := .queued, created_at := 47 }),
    ("j38", { well_url := "u", status := .queued, created_at := 48 }),
    ("j39", { well_url := "u", status := .queued, created_at := 49 }),
    ("j40", { well_url := "u", status := .queued, created_at := 50 }),
    ("j41", { well_url := "u", status := .queued, created_at := 51 }),
    ("j42", { well_url := "u", status := .queued, created_at := 52 }),
    ("j43", { well_url := "u", status := .queued, created_at := 53 }),
    ("j44", { well_url := "u", status := .queued, created_at := 54 }),
    ("j45", { well_url := "u", status := .queued, created_at := 55 }),
    ("j46", { well_url := "u", status := .queued, created_at := 56 }),
    ("j47", { well_url := "u", status := .queued, created_at := 57 }),
    ("j48", { well_url := "u", status := .queued, created_at := 58 }),
    ("j49", { well_url := "u", status := .queued, created_at := 59 })],
   [("j00", ⟨("j00", "w.pdf"), 900⟩)], 0, ⟨[("j00", "w.pdf")], ["j00"]⟩⟩

/-- The forward order on statuses: `queued` may move anywhere, `downloading`
may stay or become terminal, a terminal status may only stay itself. -/
def statusForward : Status → Status → Bool
  | .queued, _ => true
  | .downloading, .downloading => true
  | .downloading, .completed => true
  | .downloading, .failed => true
  | .completed, .completed => true
  | .failed, .failed => true
  | _, _ => false

/-- The registry/store well-formedness the system maintains: unique job ids,
unique download keys, and every download record belongs to a registered job
whose status is `completed`. -/
def DownloadsInv (s : AppState) : Prop :=
  (keysOf s.jobs).Nodup ∧
  (keysOf s.downloads).Nodup ∧
  ∀ p ∈ s.downloads,
    ∃ j, lookupA p.1 s.jobs = some j ∧ j.status = Status.completed

/-! ### Library lemmas about the dict operations -/

theorem lookupA_eq_none_iff (k : String) (l : List (String × α)) :
    lookupA k l = none ↔ k ∉ keysOf l := by
  induction l with
  | nil => simp [lookupA, keysOf]
  | cons p rest ih =>
    simp only [lookupA, keysOf, List.map_cons, List.mem_cons]
    split
    · next h => simp [h.symm]
    · next h =>
      simp only [keysOf] at ih
      rw [ih]
      constructor
      · intro hn hmem
        rcases hmem with h1 | h1
        · exact h h1.symm
        · exact hn h1
      · intro hn h1
        exact hn (Or.inr h1)

theorem mem_of_lookupA {k : String} {v : α} {l : List (String × α)}
    (h : lookupA k l = some v) : (k, v) ∈ l := by
  induction l with
  | nil => simp [lookupA] at h
  | cons p rest ih =>
    simp only [lookupA] at h
    split at h
    · next he =>
      cases h
      simp only [List.mem_cons]
      left
      rw [← he]
    · exact List.mem_cons_of_mem _ (ih h)

theorem lookupA_isSome_of_mem {k : String} {v : α} {l : List (String × α)}
    (h : (k, v) ∈ l) : ∃ v', lookupA k l = some v' := by
  induction l with
  | nil => simp at h
  | cons p rest ih =>
    simp only [lookupA]
    split
    · exact ⟨p.2, rfl⟩
    · next hne =>
      rcases List.mem_cons.1 h with h1 | h1
      · exact absurd (congrArg Prod.fst h1.symm) hne
      · exact ih h1

theorem lookupA_of_mem_nodup {k : String} {v : α} {l : List (String × α)}
    (hnd : (keysOf l).Nodup) (h : (k, v) ∈ l) : lookupA k l = some v := by
  induction l with
  | nil => simp at h
  | cons p rest ih =>
    simp only [keysOf, List.map_cons, List.nodup_cons] at hnd
    simp only [lookupA]
    rcases List.mem_cons.1 h with h1 | h1
    · rw [← h1]
      simp
    · split
      · next he =>
        exfalso
        apply hnd.1
        rw [he]
        exact List.mem_map_of_mem Prod.fst h1
      · exact ih hnd.2 h1

theorem lookupA_eraseA_ne {k k' : String} (hne : k ≠ k') (l : List (String × α)) :
    lookupA k (eraseA k' l) = lookupA k l := by
  induction l with
  | nil => simp [eraseA]
  | cons p rest ih =>
    simp only [eraseA]
    split
    · next he =>
      simp only [lookupA]
      split
      · next he2 => exact absurd (he2 ▸ he) hne
      · rfl
    · simp only [lookupA]
      split
      · rfl
      · exact ih

theorem lookupA_eraseA_self {k : String} {l : List (String × α)}
    (hnd : (keysOf l).Nodup) : lookupA k (eraseA k l) = none := by
  induction l with
  | nil => simp [eraseA, lookupA]
  | cons p rest ih =>
    simp only [keysOf, List.map_cons, List.nodup_cons] at hnd
    simp only [eraseA]
    split
    · next he =>
      rw [lookupA_eq_none_iff]
      rw [he] at hnd
      exact hnd.1
    · next he =>
      simp only [lookupA]
      split
      · next he2 => exact absurd he2 he
      · exact ih hnd.2

theorem eraseA_eq_of_lookupA_none {k : String} {l : List (String × α)}
    (h : lookupA k l = none) : eraseA k l = l := by
  induction l with
  | nil => simp [eraseA]
  | cons p rest ih =>
    simp only [lookupA] at h
    split at h
    · simp at h
    · next hne =>
      simp only [eraseA]
      rw [if_neg hne, ih h]

theorem mem_of_mem_eraseA {k : String} {p : String × α} {l : List (String × α)}
    (h : p ∈ eraseA k l) : p ∈ l := by
  induction l with
  | nil => simp [eraseA] at h
  | cons q rest ih =>
    simp only [eraseA] at h
    split at h
    · exact List.mem_cons_of_mem _ h
    · rcases List.mem_cons.1 h with h1 | h1
      · exact h1 ▸ List.mem_cons_self _ _
      · exact List.mem_cons_of_mem _ (ih h1)

theorem keysOf_eraseA_sublist (k : String) (l : List (String × α)) :
    List.Sublist (keysOf (eraseA k l)) (keysOf l) := by
  induction l with
  | nil => simp [eraseA, keysOf]
  | cons p rest ih =>
    simp only [eraseA]
    split
    · exact List.sublist_cons_self _ _
    · simpa [keysOf] using ih.cons₂ p.1

theorem nodup_keysOf_eraseA {k : String} {l : List (String × α)}
    (hnd : (keysOf l).Nodup) : (keysOf (eraseA k l)).Nodup :=
  (keysOf_eraseA_sublist k l).nodup hnd

theorem keysOf_updateA (k : String) (f : α → α) (l : List (String × α)) :
    keysOf (updateA k f l) = keysOf l := by
  induction l with
  | nil => simp [updateA]
  | cons p rest ih =>
    simp only [updateA]
    split
    · simp [keysOf]
    · simp [keysOf] at ih ⊢
      exact ih

theorem lookupA_updateA_ne {k k' : String} (hne : k ≠ k') (f : α → α)
    (l : List (String × α)) : lookupA k (updateA k' f l) = lookupA k l := by
  induction l with
  | nil => simp [updateA]
  | cons p rest ih =>
    simp only [updateA]
    split
    · next he =>
      have hp : p.1 ≠ k := fun h2 => hne (h2.symm.trans he)
      simp [lookupA, hp]
    · simp only [lookupA]
      split
      · rfl
      · exact ih

theorem lookupA_updateA_self (k : String) (f : α → α) (l : List (String × α)) :
    lookupA k (updateA k f l) = (lookupA k l).map f := by
  induction l with
  | nil => simp [updateA, lookupA]
  | cons p rest ih =>
    simp only [updateA]
    split
    · next he => simp [lookupA, he]
    · next he =>
      simp only [lookupA, if_neg he]
      exact ih

theorem lookupA_append_some {k : String} {v : α} {l l' : List (String × α)}
    (h : lookupA k l = some v) : lookupA k (l ++ l') = some v := by
  induction l with
  | nil => simp [lookupA] at h
  | cons p rest ih =>
    simp only [lookupA, List.cons_append] at h ⊢
    split at h
    · next he => rw [if_pos he]; exact h
    · next he => rw [if_neg he]; exact ih h

theorem lookupA_append_none {k : String} {l l' : List (String × α)}
    (h : lookupA k l = none) : lookupA k (l ++ l') = lookupA k l' := by
  induction l with
  | nil => simp [lookupA]
  | cons p rest ih =>
    simp only [lookupA, List.cons_append] at h ⊢
    split at h
    · simp at h
    · next he => rw [if_neg he]; exact ih h

theorem insertA_of_lookupA_none {k : String} {l : List (String × α)} (v : α)
    (h : lookupA k l = none) : insertA k v l = l ++ [(k, v)] := by
  simp [insertA, h]

/-! ### Lemmas about the eviction scan -/

theorem findOldest_fst_of_no_terminal {l : List (String × Job)}
    (oid : Option String) (ot : Nat)
    (h : ∀ p ∈ l, p.2.status.isTerminal = false) :
    (findOldest l oid ot).1 = oid := by
  induction l generalizing oid ot with
  | nil => rfl
  | cons p rest ih =>
    simp only [findOldest]
    rw [if_neg]
    · exact ih _ _ (fun q hq => h q (List.mem_cons_of_mem _ hq))
    · intro hc
      have h1 := h p (List.mem_cons_self _ _)
      have h2 : p.2.status.isTerminal = true := hc.1
      rw [h1] at h2
      exact Bool.false_ne_true h2

/-! ### Claim theorems -/

/-- C9: a `POST /api/download` request is admitted only when the submitted
`well_url` begins with the allow-listed base `https://fracfocus.org/wells/`;
any other URL is rejected with a validation error before a job is created,
and the whole state — in particular the job registry — is unchanged. -/
theorem start_download_url_validation (s : AppState) (now : Nat)
    (url newId : String) (hbad : strStarts url urlAllowBase = false) :
    start_download s now url newId = (.error 422, s) ∧
    ∀ jobId, (start_download s now url newId).1 ≠ .accepted jobId := by
  constructor
  · simp [start_download, hbad]
  · intro jobId
    simp [start_download, hbad]

/-- C9 witness: the spec's example URL `https://example.com/not-allowed` is
rejected with the registry untouched. -/
theorem start_download_url_validation_witness :
    start_download initState 5 "https://example.com/not-allowed" "j1" =
      (.error 422, initState) :=
  (start_download_url_validation initState 5 "https://example.com/not-allowed"
    "j1" (by decide)).1

/-- C2: a job-creation request arriving while the active-download count is at
the cap (2), or while the registry holds the maximum (50) jobs none of which
is terminal, fails with 429 and leaves the state — registry and download
store — unchanged, creating no job. -/
theorem start_download_capacity_reject (s : AppState) (now : Nat)
    (url newId : String) (hurl : strStarts url urlAllowBase = true)
    (hcap : MAX_CONCURRENT_DOWNLOADS ≤ s.active_downloads ∨
      (MAX_JOBS ≤ s.jobs.length ∧
        ∀ p ∈ s.jobs, p.2.status.isTerminal = false)) :
    start_download s now url newId = (.error 429, s) := by
  rcases hcap with hact | ⟨hlen, hnoterm⟩
  · simp [start_download, hurl, hact]
  · by_cases hact : MAX_CONCURRENT_DOWNLOADS ≤ s.active_downloads
    · simp [start_download, hurl, hact]
    · have hfo := findOldest_fst_of_no_terminal (l := s.jobs) none now hnoterm
      simp [start_download, hurl, hact, hlen, hfo]

/-- C2 witness: with two active downloads and an empty registry, the request
is refused with 429 and no job is created. -/
theorem start_download_capacity_reject_witness :
    start_download ⟨[], [], 2, ⟨[], []⟩⟩ 5 "https://fracfocus.org/wells/1" "j1" =
      (.error 429, ⟨[], [], 2, ⟨[], []⟩⟩) :=
  start_download_capacity_reject ⟨[], [], 2, ⟨[], []⟩⟩ 5
    "https://fracfocus.org/wells/1" "j1" (by decide) (Or.inl (by decide))

/-- C10: purging an expired download — by a janitor sweep or by the expired
check inside `GET /api/downloads/{job_id}` — never modifies the job registry:
every job record (and hence every `GET /api/jobs/{job_id}` answer, including
a `completed` status) is exactly what it was before. -/
theorem purge_preserves_jobs (now : Nat) (jobId : String) (s : AppState) :
    (janitorSweep now s).jobs = s.jobs ∧
    ((download_file now jobId s).2).jobs = s.jobs ∧
    (∀ qid, get_job_status (janitorSweep now s) qid = get_job_status s qid) ∧
    (∀ qid, get_job_status ((download_file now jobId s).2) qid =
      get_job_status s qid) := by
  have hj : (janitorSweep now s).jobs = s.jobs := by
    simp [janitorSweep]
  have hf : ((download_file now jobId s).2).jobs = s.jobs := by
    unfold download_file
    split
    · rfl
    · split
      · rfl
      · rfl
  exact ⟨hj, hf,
    fun qid => by simp [get_job_status, hj],
    fun qid => by simp [get_job_status, hf]⟩

/-- C7: every orchestration run — completion, failure for want of a button or
a PDF, or an exception anywhere in the run — has zero net effect on the
active-download counter, and terminates the browser session exactly when one
was started (`driver.quit()` in the `finally` block). -/
theorem orchestrator_releases_resources (env : OrchEnv) (jobId : String)
    (now : Nat) (s : AppState) :
    ((download_disclosure_pdf env jobId now s).1).active_downloads =
      s.active_downloads ∧
    ((download_disclosure_pdf env jobId now s).2).browserStarted =
      env.chromeStarts ∧
    ((download_disclosure_pdf env jobId now s).2).browserClosed =
      ((download_disclosure_pdf env jobId now s).2).browserStarted := by
  refine ⟨?_, rfl, rfl⟩
  unfold download_disclosure_pdf
  split
  · simp
  · split
    · simp
    · split
      · simp
      · split
        · simp
        · split
          · simp
          · simp

/-- C6: fetching `GET /api/downloads/{job_id}`: 404 with no state change when
no record exists; the backing file as `application/pdf` with the record kept
when the record has not expired; 410 with the record (and backing file)
purged when it has expired, so that a subsequent fetch answers 404. -/
theorem download_file_semantics (now : Nat) (jobId : String) (s : AppState)
    (hnd : (keysOf s.downloads).Nodup) :
    (lookupA jobId s.downloads = none →
      download_file now jobId s = (.notFound, s)) ∧
    (∀ r, lookupA jobId s.downloads = some r → ¬ r.expires_at < now →
      download_file now jobId s = (.fileResp r.file_path "application/pdf", s)) ∧
    (∀ r, lookupA jobId s.downloads = some r → r.expires_at < now →
      (download_file now jobId s).1 = .gone ∧
      lookupA jobId ((download_file now jobId s).2).downloads = none ∧
      r.file_path ∉ ((download_file now jobId s).2).fs.files ∧
      ∀ now2,
        (download_file now2 jobId ((download_file now jobId s).2)).1 =
          .notFound) := by
  refine ⟨?_, ?_, ?_⟩
  · intro h
    simp [download_file, h]
  · intro r hr hexp
    simp [download_file, hr, hexp]
  · intro r hr hexp
    have hs2 : (download_file now jobId s).2 =
        { s with
          downloads := eraseA jobId s.downloads,
          fs := { s.fs with
            files := s.fs.files.filter (fun f => f ≠ r.file_path) } } := by
      simp [download_file, hr, hexp]
    have hnone : lookupA jobId ((download_file now jobId s).2).downloads = none := by
      rw [hs2]
      exact lookupA_eraseA_self hnd
    refine ⟨by simp [download_file, hr, hexp], hnone, ?_, ?_⟩
    · rw [hs2]
      simp
    · intro now2
      generalize hgen : (download_file now jobId s).2 = s2 at hnone
      simp [download_file, hnone]

/-- C6 witness: a record expired at time 100, fetched at time 5000, answers
410 and afterwards no record remains for that job id. -/
theorem download_file_semantics_witness :
    (download_file 5000 "a"
        ⟨[], [("a", ⟨("a", "f.pdf"), 100⟩)], 0, ⟨[("a", "f.pdf")], ["a"]⟩⟩).1 =
      .gone ∧
    lookupA "a"
      ((download_file 5000 "a"
        ⟨[], [("a", ⟨("a", "f.pdf"), 100⟩)], 0,
          ⟨[("a", "f.pdf")], ["a"]⟩⟩).2).downloads = none := by
  have h := (download_file_semantics 5000 "a"
    ⟨[], [("a", ⟨("a", "f.pdf"), 100⟩)], 0, ⟨[("a", "f.pdf")], ["a"]⟩⟩
    (by decide)).2.2 ⟨("a", "f.pdf"), 100⟩ (by decide) (by decide)
  exact ⟨h.1, h.2.1⟩

/-- C5 counterexample: the claim puts the link-target-contains-"pdf" pattern
last, after "Disclosure" and "Download"; the code's `selectors` list places
`//a[contains(@href, 'pdf')]` fifth, before the "Disclosure" and "Download"
selectors. On `divergencePage` the code clicks the pdf-href anchor while the
claimed order would click the "Disclosure" button. -/
theorem selector_order_counterexample :
    findButton code_selectors divergencePage =
      some { tag := .anchor, text := "open", href := some "doc.pdf" } ∧
    specFindButton spec_patterns divergencePage =
      some { tag := .button, text := "Disclosure", href := none } ∧
    findButton code_selectors divergencePage ≠
      specFindButton spec_patterns divergencePage := by
  refine ⟨?_, ?_, ?_⟩ <;> decide

/-- First-match-wins property of the selector loop, for any selector list:
when a button is found, some selector has a non-empty match list, the found
element is the first match of that selector, and every earlier selector
matched nothing. -/
theorem findButton_first_match_gen (sels : List Selector) (page : List Elem)
    (e : Elem) (h : findButton sels page = some e) :
    ∃ i, ∃ hi : i < sels.length,
      (page.filter (fun x => selMatches (sels.get ⟨i, hi⟩) x)).head? = some e ∧
      ∀ j (hj : j < i),
        page.filter (fun x => selMatches (sels.get ⟨j, lt_trans hj hi⟩) x) = [] := by
  induction sels with
  | nil => simp [findButton] at h
  | cons sel rest ih =>
    simp only [findButton] at h
    cases hf : page.filter (fun x => selMatches sel x) with
    | nil =>
      rw [hf] at h
      obtain ⟨i, hi, hhead, hprev⟩ := ih h
      refine ⟨i + 1, Nat.succ_lt_succ hi, ?_, ?_⟩
      · simpa using hhead
      · intro j hj
        cases j with
        | zero => simpa using hf
        | succ k =>
          have hk : k < i := Nat.lt_of_succ_lt_succ hj
          simpa using hprev k hk
    | cons x xs =>
      rw [hf] at h
      refine ⟨0, Nat.succ_pos _, ?_, ?_⟩
      · simpa [hf] using h
      · intro j hj
        exact absurd hj (Nat.not_lt_zero j)

/-- C5 (amended): the orchestrator tries the selectors in the code's fixed
order — button/anchor visible text "Download PDF", button/anchor "PDF",
anchors whose link target contains "pdf", button/anchor "Disclosure",
button/anchor "Download" — and on every page the first selector in that order
with at least one match wins: the clicked element is that selector's first
match and no earlier selector matched anything (so no later selector is
consulted once a match-set is found). -/
theorem find_button_first_match (page : List Elem) (e : Elem)
    (h : findButton code_selectors page = some e) :
    ∃ i, ∃ hi : i < code_selectors.length,
      (page.filter (fun x => selMatches (code_selectors.get ⟨i, hi⟩) x)).head? =
        some e ∧
      ∀ j (hj : j < i),
        page.filter
          (fun x => selMatches (code_selectors.get ⟨j, lt_trans hj hi⟩) x) = [] :=
  findButton_first_match_gen code_selectors page e h

/-- C5 witness: on `divergencePage` the winning selector is the fifth
(`//a[contains(@href, 'pdf')]`), its first match is the clicked anchor, and
the four earlier selectors matched nothing. -/
theorem find_button_first_match_witness :
    ∃ i, ∃ hi : i < code_selectors.length,
      (divergencePage.filter
        (fun x => selMatches (code_selectors.get ⟨i, hi⟩) x)).head? =
        some { tag := .anchor, text := "open", href := some "doc.pdf" } ∧
      ∀ j (hj : j < i),
        divergencePage.filter
          (fun x => selMatches (code_selectors.get ⟨j, lt_trans hj hi⟩) x) = [] :=
  find_button_first_match divergencePage
    { tag := .anchor, text := "open", href := some "doc.pdf" } (by decide)

/-! ### Helper lemmas shared by the invariant proofs -/

theorem lookupA_eraseA_none {k k' : String} {l : List (String × α)}
    (h : lookupA k l = none) : lookupA k (eraseA k' l) = none := by
  rw [lookupA_eq_none_iff] at h ⊢
  intro hmem
  exact h ((keysOf_eraseA_sublist k' l).subset hmem)

theorem updateA_updateA (k : String) (f g : α → α) (l : List (String × α)) :
    updateA k f (updateA k g l) = updateA k (fun x => f (g x)) l := by
  induction l with
  | nil => rfl
  | cons p rest ih =>
    simp only [updateA]
    split
    · next he => simp [updateA, he]
    · next he =>
      simp only [updateA, if_neg he]
      rw [ih]

theorem nodup_keysOf_append_fresh {k : String} {l : List (String × α)} (v : α)
    (hnd : (keysOf l).Nodup) (hfresh : lookupA k l = none) :
    (keysOf (l ++ [(k, v)])).Nodup := by
  have hk : k ∉ keysOf l := (lookupA_eq_none_iff k l).1 hfresh
  simp only [keysOf, List.map_append, List.map_cons, List.map_nil]
  rw [List.nodup_append]
  refine ⟨hnd, List.nodup_singleton _, ?_⟩
  intro a ha hb
  simp only [List.mem_singleton] at hb
  exact hk (hb ▸ ha)

theorem mem_eraseA_ne_key {k : String} {p : String × α} {l : List (String × α)}
    (hnd : (keysOf l).Nodup) (h : p ∈ eraseA k l) : p.1 ≠ k := by
  intro he
  have h1 : lookupA k (eraseA k l) = none := lookupA_eraseA_self hnd
  rw [lookupA_eq_none_iff] at h1
  have h2 : p.1 ∈ keysOf (eraseA k l) := List.mem_map_of_mem Prod.fst h
  rw [he] at h2
  exact h1 h2

theorem nodup_keysOf_filter (q : String × α → Bool) {l : List (String × α)}
    (hnd : (keysOf l).Nodup) : (keysOf (l.filter q)).Nodup := by
  have hsub : List.Sublist (l.filter q) l := List.filter_sublist l
  exact (hsub.map Prod.fst).nodup hnd

/-- The janitor never touches the job registry. -/
theorem janitorSweep_jobs (now : Nat) (s : AppState) :
    (janitorSweep now s).jobs = s.jobs := by
  simp [janitorSweep]

/-- The fetch handler never touches the job registry. -/
theorem download_file_jobs (now : Nat) (jobId : String) (s : AppState) :
    ((download_file now jobId s).2).jobs = s.jobs := by
  unfold download_file
  split
  · rfl
  · split
    · rfl
    · rfl

/-- The fetch handler leaves the download store unchanged or erases exactly
the fetched key. -/
theorem download_file_downloads_cases (now : Nat) (jobId : String)
    (s : AppState) :
    ((download_file now jobId s).2).downloads = s.downloads ∨
    ((download_file now jobId s).2).downloads = eraseA jobId s.downloads := by
  unfold download_file
  split
  · exact Or.inl rfl
  · split
    · exact Or.inr rfl
    · exact Or.inl rfl

/-- The sweep keeps exactly the non-expired records, in order. -/
theorem sweepRecs_fst (now : Nat) (l : List (String × DownloadRecord))
    (fs : FS) :
    (sweepRecs now l fs).1 = l.filter (fun p => ¬ p.2.expires_at < now) := by
  induction l generalizing fs with
  | nil => rfl
  | cons p rest ih =>
    simp only [sweepRecs]
    split
    · next hexp =>
      rw [ih, List.filter_cons]
      simp [hexp]
    · next hexp =>
      simp only []
      rw [List.filter_cons]
      simp [hexp, ih]

theorem statusForward_refl (st : Status) : statusForward st st = true := by
  cases st <;> rfl

theorem statusForward_queued (st : Status) : statusForward .queued st = true := by
  cases st <;> rfl

/-- What a job-creation request does to the registry and the store: nothing
(an error), a plain append of the fresh queued job, or an eviction of one id
followed by the append. -/
theorem start_download_state_cases (s : AppState) (now : Nat)
    (url newId : String) (hfresh : lookupA newId s.jobs = none) :
    (start_download s now url newId).2 = s ∨
    ((start_download s now url newId).2.jobs =
        s.jobs ++ [(newId, newJob url now)] ∧
      (start_download s now url newId).2.downloads = s.downloads) ∨
    ∃ oid,
      (start_download s now url newId).2.jobs =
        eraseA oid s.jobs ++ [(newId, newJob url now)] ∧
      (start_download s now url newId).2.downloads = eraseA oid s.downloads := by
  unfold start_download
  split
  · exact Or.inl rfl
  · split
    · exact Or.inl rfl
    · split
      · split
        · next oid hfo =>
          right; right
          refine ⟨oid, ?_, ?_⟩
          · have h1 : (evictJob s oid).jobs = eraseA oid s.jobs := by
              unfold evictJob
              dsimp only
              split <;> rfl
            dsimp only
            rw [h1, insertA_of_lookupA_none _ (lookupA_eraseA_none hfresh)]
          · have h2 : (evictJob s oid).downloads = eraseA oid s.downloads := by
              unfold evictJob
              dsimp only
              split
              · rfl
              · next hnone =>
                dsimp only
                rw [eraseA_eq_of_lookupA_none hnone]
            dsimp only
            exact h2
        · exact Or.inl rfl
      · right; left
        dsimp only
        rw [insertA_of_lookupA_none _ hfresh]
        exact ⟨rfl, rfl⟩

/-- What one orchestration run does to the registry and the store: either a
failure — store untouched, job marked `failed` with some message — or a
success — a one-hour download record stored under the job's id and the job
marked `completed` with the produced file name. -/
theorem orchestrate_state_cases (env : OrchEnv) (jobId : String) (now : Nat)
    (s : AppState) :
    ((download_disclosure_pdf env jobId now s).1.downloads = s.downloads ∧
      ∃ msg, (download_disclosure_pdf env jobId now s).1.jobs =
        updateA jobId
          (fun j => { j with status := .failed, error := some msg }) s.jobs) ∨
    (∃ name,
      (download_disclosure_pdf env jobId now s).1.downloads =
        insertA jobId ⟨(jobId, name), now + 3600⟩ s.downloads ∧
      (download_disclosure_pdf env jobId now s).1.jobs =
        updateA jobId
          (fun j =>
            { j with
              status := .completed, file := some name,
              completed_at := some now }) s.jobs) := by
  unfold download_disclosure_pdf failJob
  dsimp only
  split
  · left
    exact ⟨rfl, env.errMsg, by rw [updateA_updateA]⟩
  · split
    · left
      exact ⟨rfl, env.errMsg, by rw [updateA_updateA]⟩
    · split
      · left
        exact ⟨rfl, "Could not find download button on page", by rw [updateA_updateA]⟩
      · split
        · left
          exact ⟨rfl, env.errMsg, by rw [updateA_updateA]⟩
        · split
          · left
            exact ⟨rfl, "No PDF files found after download", by rw [updateA_updateA]⟩
          · next name tail heq =>
            right
            exact ⟨name, rfl, by rw [updateA_updateA]⟩

/-- C3: job statuses only move forward. Across every atomic operation of the
running system — job creation (with its eviction), an orchestration run, a
janitor cycle, a download fetch, or a read-only query — a job present before
and after the operation never moves from a terminal status back to
`downloading`, nor from `downloading` back to `queued`: the pair of observed
statuses always lies in the forward order queued → downloading →
(completed | failed). -/
theorem job_status_monotonic (s s' : AppState)
    (hnd : (keysOf s.jobs).Nodup) (hstep : Step s s') (id : String)
    (j j' : Job) (hj : lookupA id s.jobs = some j)
    (hj' : lookupA id s'.jobs = some j') :
    statusForward j.status j'.status = true := by
  cases hstep with
  | create now url newId hfresh =>
    have hne : id ≠ newId := by
      intro he
      rw [he, hfresh] at hj
      cases hj
    rcases start_download_state_cases s now url newId hfresh with
      hc | ⟨hcj, _⟩ | ⟨oid, hcj, _⟩
    · rw [hc, hj] at hj'
      injection hj' with h
      rw [h]
      exact statusForward_refl _
    · rw [hcj, lookupA_append_some hj] at hj'
      injection hj' with h
      rw [h]
      exact statusForward_refl _
    · rw [hcj] at hj'
      by_cases hid : id = oid
      · subst hid
        rw [lookupA_append_none (lookupA_eraseA_self hnd)] at hj'
        simp only [lookupA] at hj'
        rw [if_neg (fun he => hne he.symm)] at hj'
        cases hj'
      · rw [lookupA_append_some (by rw [lookupA_eraseA_ne hid]; exact hj)] at hj'
        injection hj' with h
        rw [h]
        exact statusForward_refl _
  | run env jobId now j0 hj0 hq =>
    rcases orchestrate_state_cases env jobId now s with
      ⟨_, msg, hcj⟩ | ⟨name, _, hcj⟩ <;>
    · rw [hcj] at hj'
      by_cases hid : id = jobId
      · subst hid
        rw [lookupA_updateA_self, hj] at hj'
        have hjq : j.status = .queued := by
          rw [hj0] at hj
          injection hj with h2
          subst h2
          exact hq
        rw [hjq]
        exact statusForward_queued _
      · rw [lookupA_updateA_ne hid, hj] at hj'
        injection hj' with h
        rw [h]
        exact statusForward_refl _
  | janitor now =>
    rw [janitorSweep_jobs, hj] at hj'
    injection hj' with h
    rw [h]
    exact statusForward_refl _
  | fetch now jobId2 =>
    rw [download_file_jobs, hj] at hj'
    injection hj' with h
    rw [h]
    exact statusForward_refl _
  | query =>
    rw [hj] at hj'
    injection hj' with h
    rw [h]
    exact statusForward_refl _

/-- C3 witness: a janitor cycle over a registry holding one completed job
leaves its status in the forward order. -/
theorem job_status_monotonic_witness :
    statusForward Status.completed Status.completed = true :=
  job_status_monotonic
    ⟨[("a", { well_url := "u", status := .completed, created_at := 0 })],
      [], 0, ⟨[], []⟩⟩
    (janitorSweep 5
      ⟨[("a", { well_url := "u", status := .completed, created_at := 0 })],
        [], 0, ⟨[], []⟩⟩)
    (by decide)
    (Step.janitor _ 5) "a"
    { well_url := "u", status := .completed, created_at := 0 }
    { well_url := "u", status := .completed, created_at := 0 }
    (by decide) (by decide)

/-- C4: the download store always holds at most one record per job id (its
keys are unique), and every record belongs to a job present in the registry
with status `completed`. The property holds at process start and is preserved
by every atomic operation of the system. -/
theorem downloads_invariant :
    DownloadsInv initState ∧
    ∀ s s', DownloadsInv s → Step s s' → DownloadsInv s' := by
  constructor
  · refine ⟨List.nodup_nil, List.nodup_nil, ?_⟩
    intro p hp
    simp [initState] at hp
  · intro s s' hInv hstep
    obtain ⟨hndJ, hndD, hrec⟩ := hInv
    cases hstep with
    | create now url newId hfresh =>
      rcases start_download_state_cases s now url newId hfresh with
        hc | ⟨hcj, hcd⟩ | ⟨oid, hcj, hcd⟩
      · rw [hc]
        exact ⟨hndJ, hndD, hrec⟩
      · refine ⟨?_, ?_, ?_⟩
        · rw [hcj]
          exact nodup_keysOf_append_fresh _ hndJ hfresh
        · rw [hcd]
          exact hndD
        · intro p hp
          rw [hcd] at hp
          obtain ⟨j, hpj, hpc⟩ := hrec p hp
          exact ⟨j, by rw [hcj]; exact lookupA_append_some hpj, hpc⟩
      · refine ⟨?_, ?_, ?_⟩
        · rw [hcj]
          exact nodup_keysOf_append_fresh _ (nodup_keysOf_eraseA hndJ)
            (lookupA_eraseA_none hfresh)
        · rw [hcd]
          exact nodup_keysOf_eraseA hndD
        · intro p hp
          rw [hcd] at hp
          have hpne : p.1 ≠ oid := mem_eraseA_ne_key hndD hp
          obtain ⟨j, hpj, hpc⟩ := hrec p (mem_of_mem_eraseA hp)
          refine ⟨j, ?_, hpc⟩
          rw [hcj]
          exact lookupA_append_some (by rw [lookupA_eraseA_ne hpne]; exact hpj)
    | run env jobId now j0 hj0 hq =>
      have hdl : lookupA jobId s.downloads = none := by
        cases hcase : lookupA jobId s.downloads with
        | none => rfl
        | some r =>
          obtain ⟨j, hpj, hpc⟩ := hrec (jobId, r) (mem_of_lookupA hcase)
          have hpj2 : lookupA jobId s.jobs = some j := hpj
          rw [hj0] at hpj2
          injection hpj2 with h2
          rw [← h2, hq] at hpc
          cases hpc
      rcases orchestrate_state_cases env jobId now s with
        ⟨hcd, msg, hcj⟩ | ⟨name, hcd, hcj⟩
      · refine ⟨?_, ?_, ?_⟩
        · rw [hcj, keysOf_updateA]
          exact hndJ
        · rw [hcd]
          exact hndD
        · intro p hp
          rw [hcd] at hp
          obtain ⟨j, hpj, hpc⟩ := hrec p hp
          have hpne : p.1 ≠ jobId := by
            intro he
            obtain ⟨v', hv⟩ := lookupA_isSome_of_mem hp
            rw [he, hdl] at hv
            cases hv
          exact ⟨j, by rw [hcj, lookupA_updateA_ne hpne]; exact hpj, hpc⟩
      · have hcd2 : (download_disclosure_pdf env jobId now s).1.downloads =
            s.downloads ++ [(jobId, ⟨(jobId, name), now + 3600⟩)] := by
          rw [hcd, insertA_of_lookupA_none _ hdl]
        refine ⟨?_, ?_, ?_⟩
        · rw [hcj, keysOf_updateA]
          exact hndJ
        · rw [hcd2]
          exact nodup_keysOf_append_fresh _ hndD hdl
        · intro p hp
          rw [hcd2] at hp
          rcases List.mem_append.1 hp with hp1 | hp1
          · obtain ⟨j, hpj, hpc⟩ := hrec p hp1
            have hpne : p.1 ≠ jobId := by
              intro he
              obtain ⟨v', hv⟩ := lookupA_isSome_of_mem hp1
              rw [he, hdl] at hv
              cases hv
            exact ⟨j, by rw [hcj, lookupA_updateA_ne hpne]; exact hpj, hpc⟩
          · simp only [List.mem_singleton] at hp1
            subst hp1
            refine ⟨{ j0 with
                status := .completed, file := some name,
                completed_at := some now }, ?_, rfl⟩
            show lookupA jobId (download_disclosure_pdf env jobId now s).1.jobs =
              _
            rw [hcj, lookupA_updateA_self, hj0]
            rfl
    | janitor now =>
      have hd : (janitorSweep now s).downloads =
          s.downloads.filter (fun p => ¬ p.2.expires_at < now) := by
        simp [janitorSweep, sweepRecs_fst]
      refine ⟨?_, ?_, ?_⟩
      · rw [janitorSweep_jobs]
        exact hndJ
      · rw [hd]
        exact nodup_keysOf_filter _ hndD
      · intro p hp
        rw [hd] at hp
        obtain ⟨j, hpj, hpc⟩ := hrec p (List.mem_of_mem_filter hp)
        exact ⟨j, by rw [janitorSweep_jobs]; exact hpj, hpc⟩
    | fetch now jobId2 =>
      rcases download_file_downloads_cases now jobId2 s with hc | hc
      · refine ⟨?_, ?_, ?_⟩
        · rw [download_file_jobs]
          exact hndJ
        · rw [hc]
          exact hndD
        · intro p hp
          rw [hc] at hp
          obtain ⟨j, hpj, hpc⟩ := hrec p hp
          exact ⟨j, by rw [download_file_jobs]; exact hpj, hpc⟩
      · refine ⟨?_, ?_, ?_⟩
        · rw [download_file_jobs]
          exact hndJ
        · rw [hc]
          exact nodup_keysOf_eraseA hndD
        · intro p hp
          rw [hc] at hp
          obtain ⟨j, hpj, hpc⟩ := hrec p (mem_of_mem_eraseA hp)
          exact ⟨j, by rw [download_file_jobs]; exact hpj, hpc⟩
    | query =>
      exact ⟨hndJ, hndD, hrec⟩

/-- C4 witness: the invariant is preserved across a concrete janitor step
from the initial state. -/
theorem downloads_invariant_witness : DownloadsInv (janitorSweep 7 initState) :=
  downloads_invariant.2 initState (janitorSweep 7 initState)
    downloads_invariant.1 (Step.janitor initState 7)

/-! ### Janitor filesystem lemmas -/

theorem janitorSweep_downloads (now : Nat) (s : AppState) :
    (janitorSweep now s).downloads =
      s.downloads.filter (fun p => ¬ p.2.expires_at < now) := by
  simp [janitorSweep, sweepRecs_fst]

theorem janitorSweep_fs (now : Nat) (s : AppState) :
    (janitorSweep now s).fs = (sweepRecs now s.downloads s.fs).2 := by
  simp [janitorSweep]

theorem fsCleanup_files (r : DownloadRecord) (fs : FS) :
    (fsCleanup r fs).files = fs.files.filter (fun f => f ≠ r.file_path) := by
  unfold fsCleanup
  dsimp only
  split <;> rfl

theorem fsCleanup_dirs_sublist (r : DownloadRecord) (fs : FS) :
    List.Sublist (fsCleanup r fs).dirs fs.dirs := by
  unfold fsCleanup
  dsimp only
  split
  · exact List.filter_sublist fs.dirs
  · exact List.Sublist.refl _

theorem sweepRecs_files_sublist (now : Nat)
    (l : List (String × DownloadRecord)) (fs : FS) :
    List.Sublist (sweepRecs now l fs).2.files fs.files := by
  induction l generalizing fs with
  | nil => exact List.Sublist.refl _
  | cons p rest ih =>
    simp only [sweepRecs]
    split
    · refine (ih (fsCleanup p.2 fs)).trans ?_
      rw [fsCleanup_files]
      exact List.filter_sublist fs.files
    · dsimp only
      exact ih fs

theorem sweepRecs_dirs_sublist (now : Nat)
    (l : List (String × DownloadRecord)) (fs : FS) :
    List.Sublist (sweepRecs now l fs).2.dirs fs.dirs := by
  induction l generalizing fs with
  | nil => exact List.Sublist.refl _
  | cons p rest ih =>
    simp only [sweepRecs]
    split
    · exact (ih (fsCleanup p.2 fs)).trans (fsCleanup_dirs_sublist p.2 fs)
    · dsimp only
      exact ih fs

/-- Every expired record's backing file is gone after the sweep. -/
theorem sweepRecs_removes_file (now : Nat) (p : String × DownloadRecord)
    (hexp : p.2.expires_at < now) :
    ∀ (l : List (String × DownloadRecord)) (fs : FS), p ∈ l →
      p.2.file_path ∉ (sweepRecs now l fs).2.files := by
  intro l
  induction l with
  | nil =>
    intro fs hp
    simp at hp
  | cons q rest ih =>
    intro fs hp
    simp only [sweepRecs]
    rcases List.mem_cons.1 hp with hpq | hpr
    · subst hpq
      rw [if_pos hexp]
      intro hmem
      have hmem2 := (sweepRecs_files_sublist now rest (fsCleanup p.2 fs)).subset hmem
      rw [fsCleanup_files] at hmem2
      simp [List.mem_filter] at hmem2
    · split
      · exact ih (fsCleanup q.2 fs) hpr
      · dsimp only
        exact ih fs hpr

/-- Every expired record's job directory is gone after the sweep, provided the
record's file was the only file of that directory. -/
theorem sweepRecs_removes_dir (now : Nat) (p : String × DownloadRecord)
    (hexp : p.2.expires_at < now) :
    ∀ (l : List (String × DownloadRecord)) (fs : FS), p ∈ l →
      (∀ f ∈ fs.files, f.1 = p.2.file_path.1 → f = p.2.file_path) →
      p.2.file_path.1 ∉ (sweepRecs now l fs).2.dirs := by
  intro l
  induction l with
  | nil =>
    intro fs hp _
    simp at hp
  | cons q rest ih =>
    intro fs hp honly
    simp only [sweepRecs]
    rcases List.mem_cons.1 hp with hpq | hpr
    · subst hpq
      rw [if_pos hexp]
      have hdir : p.2.file_path.1 ∉ (fsCleanup p.2 fs).dirs := by
        unfold fsCleanup
        dsimp only
        split
        · next hcond =>
          simp [List.mem_filter]
        · next hcond =>
          intro hmem
          apply hcond
          refine ⟨hmem, ?_⟩
          rw [List.filter_eq_nil_iff]
          intro f hf
          rw [List.mem_filter] at hf
          intro hfd
          have h1 := honly f hf.1 (by simpa using hfd)
          have h2 := hf.2
          rw [h1] at h2
          simp at h2
      intro hmem
      exact hdir ((sweepRecs_dirs_sublist now rest (fsCleanup p.2 fs)).subset hmem)
    · have hpq : p.2.expires_at < now := hexp
      split
      · next hqexp =>
        refine ih (fsCleanup q.2 fs) hpr ?_
        intro f hf hfd
        rw [fsCleanup_files] at hf
        exact honly f (List.mem_of_mem_filter hf) hfd
      · dsimp only
        exact ih fs hpr honly

/-- C8: every download record is created (by a completing orchestration run
at time `now2`) with expiration `now2 + 3600`, one hour after its creation
instant; and a janitor cycle at time `now` keeps exactly the records whose
expiration has not passed — every non-expired record survives unchanged, and
for every expired record the backing file is deleted and, when that file was
the only occupant of its job-scoped directory, the directory is deleted
too. -/
theorem janitor_expiry_semantics (now : Nat) (s : AppState) :
    (∀ (env : OrchEnv) (jobId : String) (now2 : Nat) (r : DownloadRecord)
        (s2 : AppState),
      lookupA jobId s2.downloads = none →
      lookupA jobId
        ((download_disclosure_pdf env jobId now2 s2).1).downloads = some r →
      r.expires_at = now2 + 3600) ∧
    (∀ id r, (id, r) ∈ (janitorSweep now s).downloads ↔
      ((id, r) ∈ s.downloads ∧ ¬ r.expires_at < now)) ∧
    (∀ p ∈ s.downloads, p.2.expires_at < now →
      p.2.file_path ∉ (janitorSweep now s).fs.files) ∧
    (∀ p ∈ s.downloads, p.2.expires_at < now →
      (∀ f ∈ s.fs.files, f.1 = p.2.file_path.1 → f = p.2.file_path) →
      p.2.file_path.1 ∉ (janitorSweep now s).fs.dirs) := by
  refine ⟨?_, ?_, ?_, ?_⟩
  · intro env jobId now2 r s2 hnone hsome
    rcases orchestrate_state_cases env jobId now2 s2 with
      ⟨hcd, _, _⟩ | ⟨name, hcd, _⟩
    · rw [hcd, hnone] at hsome
      cases hsome
    · rw [hcd, insertA_of_lookupA_none _ hnone,
        lookupA_append_none hnone] at hsome
      simp only [lookupA, if_pos rfl] at hsome
      rw [if_true] at hsome
      injection hsome with h3
      rw [← h3]
  · intro id r
    rw [janitorSweep_downloads]
    simp [List.mem_filter]
  · intro p hp hexp
    rw [janitorSweep_fs]
    exact sweepRecs_removes_file now p hexp s.downloads s.fs hp
  · intro p hp hexp honly
    rw [janitorSweep_fs]
    exact sweepRecs_removes_dir now p hexp s.downloads s.fs hp honly

/-- C8 witness: sweeping at time 5000 a store holding a record expired at 100
and a record expiring at 9000 removes exactly the expired one, deletes its
file and its singleton directory, and keeps the live record. -/
theorem janitor_expiry_semantics_witness :
    ((("a", "f.pdf") : FPath) ∉
      (janitorSweep 5000
        ⟨[], [("a", ⟨("a", "f.pdf"), 100⟩), ("b", ⟨("b", "g.pdf"), 9000⟩)], 0,
          ⟨[("a", "f.pdf"), ("b", "g.pdf")], ["a", "b"]⟩⟩).fs.files) ∧
    (("a" : String) ∉
      (janitorSweep 5000
        ⟨[], [("a", ⟨("a", "f.pdf"), 100⟩), ("b", ⟨("b", "g.pdf"), 9000⟩)], 0,
          ⟨[("a", "f.pdf"), ("b", "g.pdf")], ["a", "b"]⟩⟩).fs.dirs) ∧
    (("b", (⟨("b", "g.pdf"), 9000⟩ : DownloadRecord)) ∈
      (janitorSweep 5000
        ⟨[], [("a", ⟨("a", "f.pdf"), 100⟩), ("b", ⟨("b", "g.pdf"), 9000⟩)], 0,
          ⟨[("a", "f.pdf"), ("b", "g.pdf")], ["a", "b"]⟩⟩).downloads) :=
  ⟨(janitor_expiry_semantics 5000
      ⟨[], [("a", ⟨("a", "f.pdf"), 100⟩), ("b", ⟨("b", "g.pdf"), 9000⟩)], 0,
        ⟨[("a", "f.pdf"), ("b", "g.pdf")], ["a", "b"]⟩⟩).2.2.1
      ("a", ⟨("a", "f.pdf"), 100⟩) (by decide) (by decide),
   (janitor_expiry_semantics 5000
      ⟨[], [("a", ⟨("a", "f.pdf"), 100⟩), ("b", ⟨("b", "g.pdf"), 9000⟩)], 0,
        ⟨[("a", "f.pdf"), ("b", "g.pdf")], ["a", "b"]⟩⟩).2.2.2
      ("a", ⟨("a", "f.pdf"), 100⟩) (by decide) (by decide) (by decide),
   ((janitor_expiry_semantics 5000
      ⟨[], [("a", ⟨("a", "f.pdf"), 100⟩), ("b", ⟨("b", "g.pdf"), 9000⟩)], 0,
        ⟨[("a", "f.pdf"), ("b", "g.pdf")], ["a", "b"]⟩⟩).2.1
      "b" ⟨("b", "g.pdf"), 9000⟩).2 ⟨by decide, by decide⟩⟩

/-! ### Minimality of the eviction scan -/

theorem findOldest_snd_le (l : List (String × Job)) (oid : Option String)
    (ot : Nat) : (findOldest l oid ot).2 ≤ ot := by
  induction l generalizing oid ot with
  | nil => exact le_refl _
  | cons p rest ih =>
    simp only [findOldest]
    split
    · next hc => exact (ih (some p.1) p.2.created_at).trans (le_of_lt hc.2)
    · exact ih oid ot

theorem findOldest_snd_le_terminal (p : String × Job)
    (hterm : p.2.status.isTerminal = true) :
    ∀ (l : List (String × Job)) (oid : Option String) (ot : Nat), p ∈ l →
      (findOldest l oid ot).2 ≤ p.2.created_at := by
  intro l
  induction l with
  | nil =>
    intro oid ot hp
    simp at hp
  | cons q rest ih =>
    intro oid ot hp
    simp only [findOldest]
    rcases List.mem_cons.1 hp with hpq | hpr
    · subst hpq
      split
      · exact findOldest_snd_le rest _ _
      · next hc =>
        have hle : ot ≤ p.2.created_at := by
          by_contra hlt
          push_neg at hlt
          exact hc ⟨hterm, hlt⟩
        exact (findOldest_snd_le rest oid ot).trans hle
    · split
      · exact ih _ _ hpr
      · exact ih _ _ hpr

theorem findOldest_fst_spec :
    ∀ (l : List (String × Job)) (oid : Option String) (ot : Nat)
      (id : Option String) (t : Nat),
      findOldest l oid ot = (id, t) →
      (id = oid ∧ t = ot) ∨
      ∃ i j, id = some i ∧ (i, j) ∈ l ∧ j.status.isTerminal = true ∧
        j.created_at = t := by
  intro l
  induction l with
  | nil =>
    intro oid ot id t h
    simp only [findOldest] at h
    injection h with h1 h2
    exact Or.inl ⟨h1.symm, h2.symm⟩
  | cons q rest ih =>
    intro oid ot id t h
    simp only [findOldest] at h
    split at h
    · next hc =>
      rcases ih _ _ _ _ h with ⟨h1, h2⟩ | ⟨i, j, h1, h2, h3, h4⟩
      · exact Or.inr ⟨q.1, q.2, h1, List.mem_cons_self _ _, hc.1, h2.symm⟩
      · exact Or.inr ⟨i, j, h1, List.mem_cons_of_mem _ h2, h3, h4⟩
    · rcases ih _ _ _ _ h with hl | ⟨i, j, h1, h2, h3, h4⟩
      · exact Or.inl hl
      · exact Or.inr ⟨i, j, h1, List.mem_cons_of_mem _ h2, h3, h4⟩

/-- When some terminal job was created strictly before `now`, the scan
returns a terminal job of minimal creation time among all terminal jobs. -/
theorem findOldest_finds_terminal (l : List (String × Job)) (now : Nat)
    (hex : ∃ p ∈ l, p.2.status.isTerminal = true ∧ p.2.created_at < now) :
    ∃ oid j, (findOldest l none now).1 = some oid ∧ (oid, j) ∈ l ∧
      j.status.isTerminal = true ∧
      ∀ q ∈ l, q.2.status.isTerminal = true →
        j.created_at ≤ q.2.created_at := by
  obtain ⟨p, hp, hterm, hlt⟩ := hex
  rcases hres : findOldest l none now with ⟨id, t⟩
  have ht_le : t ≤ p.2.created_at := by
    have h := findOldest_snd_le_terminal p hterm l none now hp
    rw [hres] at h
    exact h
  have ht_lt : t < now := lt_of_le_of_lt ht_le hlt
  rcases findOldest_fst_spec l none now id t hres with ⟨h1, h2⟩ |
    ⟨i, j, h1, h2, h3, h4⟩
  · rw [h2] at ht_lt
    exact absurd ht_lt (lt_irrefl now)
  · refine ⟨i, j, ?_, h2, h3, ?_⟩
    · exact h1
    · intro q hq hqterm
      have h := findOldest_snd_le_terminal q hqterm l none now hq
      rw [hres] at h
      rw [h4]
      exact h

theorem evictJob_jobs (s : AppState) (oid : String) :
    (evictJob s oid).jobs = eraseA oid s.jobs := by
  unfold evictJob
  dsimp only
  split <;> rfl

theorem evictJob_downloads (s : AppState) (oid : String) :
    (evictJob s oid).downloads = eraseA oid s.downloads := by
  unfold evictJob
  dsimp only
  split
  · rfl
  · next hnone =>
    have h : lookupA oid s.downloads = none := hnone
    dsimp only
    rw [eraseA_eq_of_lookupA_none h]

theorem evictJob_files (s : AppState) (oid : String) (r : DownloadRecord)
    (hr : lookupA oid s.downloads = some r) :
    r.file_path ∉ (evictJob s oid).fs.files := by
  unfold evictJob
  dsimp only
  split
  · next r2 hr2 =>
    have hr2s : lookupA oid s.downloads = some r2 := hr2
    rw [hr] at hr2s
    injection hr2s with h
    subst h
    simp [List.mem_filter]
  · next hnone =>
    have h : lookupA oid s.downloads = none := hnone
    rw [hr] at h
    cases h

/-- C1: when a job-creation request arrives with the registry at the maximum
(50 jobs), the concurrency gate open, and at least one terminal job (every
job having been created strictly before the request), the request is
admitted and exactly one terminal job of minimal creation time among the
terminal jobs is evicted: it leaves the registry together with its download
record, its backing file is removed, and every non-terminal (queued or
downloading) job survives untouched. -/
theorem start_download_eviction (s : AppState) (now : Nat) (url newId : String)
    (hurl : strStarts url urlAllowBase = true)
    (hact : s.active_downloads < MAX_CONCURRENT_DOWNLOADS)
    (hlen : MAX_JOBS ≤ s.jobs.length)
    (hndJ : (keysOf s.jobs).Nodup)
    (hfresh : lookupA newId s.jobs = none)
    (hpast : ∀ p ∈ s.jobs, p.2.created_at < now)
    (hterm : ∃ p ∈ s.jobs, p.2.status.isTerminal = true) :
    ∃ oid j,
      (oid, j) ∈ s.jobs ∧ j.status.isTerminal = true ∧
      (∀ q ∈ s.jobs, q.2.status.isTerminal = true →
        j.created_at ≤ q.2.created_at) ∧
      (start_download s now url newId).1 = .accepted newId ∧
      (start_download s now url newId).2.jobs =
        eraseA oid s.jobs ++ [(newId, newJob url now)] ∧
      (start_download s now url newId).2.downloads = eraseA oid s.downloads ∧
      (∀ r, lookupA oid s.downloads = some r →
        r.file_path ∉ (start_download s now url newId).2.fs.files) ∧
      (∀ q ∈ s.jobs, q.2.status.isTerminal = false →
        lookupA q.1 (start_download s now url newId).2.jobs = some q.2) := by
  have hex : ∃ p ∈ s.jobs, p.2.status.isTerminal = true ∧
      p.2.created_at < now := by
    obtain ⟨p, hp, ht⟩ := hterm
    exact ⟨p, hp, ht, hpast p hp⟩
  obtain ⟨oid, j, hfo, hmem, hjterm, hmin⟩ :=
    findOldest_finds_terminal s.jobs now hex
  have hnot2 : ¬ MAX_CONCURRENT_DOWNLOADS ≤ s.active_downloads :=
    Nat.not_le_of_lt hact
  have heq : start_download s now url newId =
      (.accepted newId,
        { evictJob s oid with
          jobs := insertA newId (newJob url now) (evictJob s oid).jobs }) := by
    unfold start_download
    rw [if_neg (by simp [hurl]), if_neg hnot2, if_pos hlen, hfo]
  have hjobs : (start_download s now url newId).2.jobs =
      eraseA oid s.jobs ++ [(newId, newJob url now)] := by
    rw [heq]
    dsimp only
    rw [evictJob_jobs, insertA_of_lookupA_none _ (lookupA_eraseA_none hfresh)]
  refine ⟨oid, j, hmem, hjterm, hmin, by rw [heq], hjobs, ?_, ?_, ?_⟩
  · rw [heq]
    dsimp only
    exact evictJob_downloads s oid
  · intro r hr
    rw [heq]
    dsimp only
    exact evictJob_files s oid r hr
  · intro q hq hqnt
    have hqne : q.1 ≠ oid := by
      intro he
      have h1 : lookupA q.1 s.jobs = some q.2 := lookupA_of_mem_nodup hndJ hq
      have h2 : lookupA oid s.jobs = some j := lookupA_of_mem_nodup hndJ hmem
      rw [he, h2] at h1
      injection h1 with h3
      rw [← h3] at hqnt
      rw [hjterm] at hqnt
      cases hqnt
    rw [hjobs]
    refine lookupA_append_some ?_
    rw [lookupA_eraseA_ne hqne]
    exact lookupA_of_mem_nodup hndJ hq

/-- C1 witness: on the fifty-job registry of `evictionWitnessState`, the
admitted request evicts a minimal-creation-time terminal job together with
its download record and file, keeping every non-terminal job. -/
theorem start_download_eviction_witness :
    ∃ oid j,
      (oid, j) ∈ evictionWitnessState.jobs ∧ j.status.isTerminal = true ∧
      (∀ q ∈ evictionWitnessState.jobs, q.2.status.isTerminal = true →
        j.created_at ≤ q.2.created_at) ∧
      (start_download evictionWitnessState 100
        "https://fracfocus.org/wells/1" "newid").1 = .accepted "newid" ∧
      (start_download evictionWitnessState 100
        "https://fracfocus.org/wells/1" "newid").2.jobs =
        eraseA oid evictionWitnessState.jobs ++
          [("newid", newJob "https://fracfocus.org/wells/1" 100)] ∧
      (start_download evictionWitnessState 100
        "https://fracfocus.org/wells/1" "newid").2.downloads =
        eraseA oid evictionWitnessState.downloads ∧
      (∀ r, lookupA oid evictionWitnessState.downloads = some r →
        r.file_path ∉ (start_download evictionWitnessState 100
          "https://fracfocus.org/wells/1" "newid").2.fs.files) ∧
      (∀ q ∈ evictionWitnessState.jobs, q.2.status.isTerminal = false →
        lookupA q.1 (start_download evictionWitnessState 100
          "https://fracfocus.org/wells/1" "newid").2.jobs = some q.2) :=
  start_download_eviction evictionWitnessState 100
    "https://fracfocus.org/wells/1" "newid"
    (by decide) (by decide) (by decide) (by decide) (by decide) (by decide)
    (by decide)
